import Mathlib

/-!
Shallow embedding of the job-execution engine `trw/train/job_executor2.py`:
the worker pool (`worker`), the result-collector threads
(`collect_results_to_main_process`) and the pool controller (`JobExecutor2`
with `put`, `is_idle`, `reset`, `close`).

Payloads are opaque: everything is parametrised by a payload type, written
`A` below.  The user transform (`function_to_run`) is modelled as a function
`A -> TransformResult A`: it either returns a value (which in Python may
itself be `None`, hence `Option A`) or raises.

Machine state is a single record: shared controller fields
(`job_session_id`, `jobs_processed`, `jobs_queued`, `worker_control`, the
queues, the abort event) together with the local program counter of each
worker process and each collector thread.  Queues are FIFO lists (head =
next element to be dequeued).  Entries of the shared consumer queue
(`pin_memory_queue`) carry a ghost session tag recording the session id the
producing collector had fetched with; the real queue stores only the bare
payload, and the tag is never read by any modelled operation.

Concurrency is modelled by a labelled interleaving step relation `Step`.
Each step is one region of code of one thread between two scheduling
points.  In particular a collector's session check (line 165 of the
source) and its subsequent push onto the shared queue (line 176) are two
distinct steps, because the Python runtime may interleave the main
thread's `reset` between them.
-/

/-- Outcome of one invocation of the user transform: it either returns a
value (possibly the Python value `None`, hence `Option A`) or raises an
exception. -/
inductive TransformResult (A : Type) where
  | ok (val : Option A) : TransformResult A
  | raised : TransformResult A
deriving DecidableEq, Repr

/-- Immutable configuration of a `JobExecutor2` (constructor arguments). -/
structure Config (A : Type) where
  nbWorkers : Nat
  functionToRun : A → TransformResult A
  maxQueueSizePerWorker : Nat
  maxQueueSizePinThreadPerWorker : Nat
  nbPinThreads : Nat

/-- Capacity of the shared consumer queue:
`pin_memory_queue = ThreadQueue(max_queue_size_pin_thread_per_worker * nb_workers)`. -/
def Config.pinQueueCapacity {A : Type} (cfg : Config A) : Nat :=
  cfg.maxQueueSizePinThreadPerWorker * cfg.nbWorkers

/-- A Python bounded queue with `maxsize = cap` reports full when
`0 < maxsize` and `maxsize <= qsize` (a nonpositive `maxsize` means
unbounded). -/
def queueFull (cap size : Nat) : Prop := 0 < cap ∧ cap ≤ size

instance (cap size : Nat) : Decidable (queueFull cap size) := by
  unfold queueFull; infer_instance

/-- Local state of one worker process inside its loop: `idle` when
`item is None` (about to poll its input queue), `emitting` when it holds a
transformed item it has not yet managed to put on its output queue
(`output_queue.put` blocks while that queue is full). -/
inductive WorkerPC (A : Type) where
  | idle : WorkerPC A
  | emitting (sid : Nat) (item : Option A) : WorkerPC A
deriving DecidableEq, Repr

/-- Local state of one collector (pin) thread:
`idle` — `item is None and item_job_session_id is None`, about to poll the
worker output queues; `holding` — it has dequeued a non-`None` result and
is at the top of the loop, about to compare the result's session tag with
the live session id (source line 165); `validated` — the comparison
succeeded and the thread is about to test/push onto the shared consumer
queue (source lines 174-176). -/
inductive CollectorPC (A : Type) where
  | idle : CollectorPC A
  | holding (sid : Nat) (item : A) : CollectorPC A
  | validated (sid : Nat) (item : A) : CollectorPC A
deriving DecidableEq, Repr

/-- The whole machine state: shared controller state plus the local state
of every worker process and every collector thread. -/
structure State (A : Type) where
  jobSessionId : Nat
  jobsProcessed : Nat
  jobsQueued : Nat
  workerControl : Nat
  workerInputQueues : List (List (Nat × A))
  workerOutputQueues : List (List (Nat × Option A))
  pinMemoryQueue : List (Nat × Option A)
  abortEvent : Bool
  workers : List (WorkerPC A)
  collectors : List (CollectorPC A)
deriving DecidableEq, Repr

/-- State right after `JobExecutor2.__init__` / `start`: zeroed counters
and session id, cleared abort event, empty queues, every worker and
collector idle. -/
def initState {A : Type} (cfg : Config A) : State A where
  jobSessionId := 0
  jobsProcessed := 0
  jobsQueued := 0
  workerControl := 0
  workerInputQueues := List.replicate cfg.nbWorkers []
  workerOutputQueues := List.replicate cfg.nbWorkers []
  pinMemoryQueue := []
  abortEvent := false
  workers := List.replicate cfg.nbWorkers WorkerPC.idle
  collectors := List.replicate cfg.nbPinThreads CollectorPC.idle

/-- The scan loop of `JobExecutor2.put` (source lines 472-478), with
`fuel = nb_workers` iterations:

    for i in range(self.nb_workers):
        queue = self.worker_input_queues[self.worker_control]
        if not queue.full():
            queue.put((self.job_session_id.value, data))
            self.worker_control = (self.worker_control + 1) % self.nb_workers
            self.jobs_queued += 1
            return True
    return False

Note that `worker_control` is advanced only inside the success branch, so
every iteration examines the same queue. -/
def putScan {A : Type} (cfg : Config A) (a : A) : Nat → State A → State A × Bool
  | 0, s => (s, false)
  | fuel + 1, s =>
    let q := s.workerInputQueues.getD s.workerControl []
    if queueFull cfg.maxQueueSizePerWorker q.length then
      putScan cfg a fuel s
    else
      ({ s with
          workerInputQueues :=
            s.workerInputQueues.set s.workerControl (q ++ [(s.jobSessionId, a)])
          workerControl := (s.workerControl + 1) % cfg.nbWorkers
          jobsQueued := s.jobsQueued + 1 }, true)

/-- `JobExecutor2.put` (source lines 452-481).  With zero workers the
transform runs synchronously in the caller: an exception it raises
propagates to the caller, modelled as `none`.  Otherwise the scan loop
runs; it never raises, and returns the new state together with the boolean
result of `put`. -/
def put {A : Type} (cfg : Config A) (a : A) (s : State A) :
    Option (State A × Bool) :=
  if cfg.nbWorkers = 0 then
    match cfg.functionToRun a with
    | TransformResult.raised => none
    | TransformResult.ok v =>
        some ({ s with
                  pinMemoryQueue := s.pinMemoryQueue ++ [(s.jobSessionId, v)]
                  jobsQueued := s.jobsQueued + 1 }, true)
  else
    some (putScan cfg a cfg.nbWorkers s)

/-- `JobExecutor2.is_idle` (source lines 483-489):
`jobs_processed.value == jobs_queued` under the counter's lock. -/
def isIdle {A : Type} (s : State A) : Bool :=
  s.jobsProcessed == s.jobsQueued

/-- The drain loop of `JobExecutor2.reset`:
`while not self.pin_memory_queue.empty(): self.pin_memory_queue.get()`. -/
def drainQueue {A : Type} : List (Nat × Option A) → List (Nat × Option A)
  | [] => []
  | _ :: rest => drainQueue rest

/-- `JobExecutor2.reset` (source lines 491-534): drain the shared consumer
queue, then increment the session id under its lock.  (The block of source
lines 504-523 that clears the worker queues and the counters is dead code
inside a string literal and is not executed.) -/
def reset {A : Type} (s : State A) : State A :=
  { s with
      pinMemoryQueue := drainQueue s.pinMemoryQueue
      jobSessionId := s.jobSessionId + 1 }

/-- One invocation of the user transform inside `worker` (source lines
65-81): a raised exception is caught, logged, and replaced by the value
`None`, so the emitted item is `None` exactly when the transform raised or
itself returned `None`. -/
def runTransform {A : Type} (f : A → TransformResult A) (a : A) : Option A :=
  match f a with
  | TransformResult.ok v => v
  | TransformResult.raised => none

/-- `JobExecutor2.close` (source lines 364-432), with the wall-clock
waiting elided.  `isOwner` states whether the calling process is the one
that created the pool (`os.getpid() == self.main_process`).  The abort
event is set before the ownership test; a non-owning caller then returns
after logging an error.  The owning caller waits, terminates the worker
processes, closes and releases the queues and joins the collector
threads. -/
def close {A : Type} (isOwner : Bool) (s : State A) : State A :=
  let s1 : State A := { s with abortEvent := true }
  if isOwner then
    { s1 with
        workerInputQueues := []
        workerOutputQueues := []
        workers := []
        collectors := []
        pinMemoryQueue := [] }
  else
    s1

/-- Labels of the interleaving transition system: which thread executes
which region of code. -/
inductive Label (A : Type) where
  | putCall (a : A) : Label A
  | workerFetch (i : Nat) : Label A
  | workerEmit (i : Nat) : Label A
  | collFetchNone (t i : Nat) : Label A
  | collFetchSome (t i : Nat) : Label A
  | collStale (t : Nat) : Label A
  | collValidate (t : Nat) : Label A
  | collPush (t : Nat) : Label A
  | collPushFull (t : Nat) : Label A
  | resetCall : Label A
  | consumerGet : Label A
deriving DecidableEq, Repr

/-- Interleaving semantics of the executor while running (the `close`
teardown is terminal and modelled separately by `close`).  Each
constructor is one region of one thread's code between two scheduling
points, translated from the source:

* `putCall` — `JobExecutor2.put`, any outcome (lines 452-481);
* `workerFetch` — worker `i` dequeues a job and applies the transform,
  catching an exception (lines 58-81);
* `workerEmit` — worker `i` performs `output_queue.put((sid, item))`,
  which blocks while its output queue is full (line 83);
* `collFetchNone` — collector `t` dequeues a failed result (`item is
  None`) from output queue `i` and counts it (lines 128-151);
* `collFetchSome` — collector `t` dequeues a non-`None` result from
  output queue `i` (lines 128-139);
* `collStale` — the held result's session tag differs from the live
  session id: count and discard (lines 165-172);
* `collValidate` — the session tags match (line 165, test false);
* `collPush` — the shared consumer queue is not full: push the held item
  and count it (lines 174-183);
* `collPushFull` — the shared consumer queue is full: sleep and retry,
  which re-enters the loop still holding the item (lines 184-186);
* `resetCall` — the main thread runs `JobExecutor2.reset`;
* `consumerGet` — the consumer pops one item off the shared queue. -/
inductive Step {A : Type} (cfg : Config A) : Label A → State A → State A → Prop where
  | putCall (a : A) (s s' : State A) (r : Bool)
      (h : put cfg a s = some (s', r)) :
      Step cfg (Label.putCall a) s s'
  | workerFetch (i sid : Nat) (a : A) (rest : List (Nat × A)) (s : State A)
      (habort : s.abortEvent = false)
      (hidle : s.workers.getD i WorkerPC.idle = WorkerPC.idle)
      (hq : s.workerInputQueues.getD i [] = (sid, a) :: rest)
      (hi : i < s.workers.length) :
      Step cfg (Label.workerFetch i) s
        { s with
            workerInputQueues := s.workerInputQueues.set i rest
            workers :=
              s.workers.set i
                (WorkerPC.emitting sid (runTransform cfg.functionToRun a)) }
  | workerEmit (i sid : Nat) (item : Option A) (s : State A)
      (hpc : s.workers.getD i WorkerPC.idle = WorkerPC.emitting sid item)
      (hfull : ¬ queueFull cfg.maxQueueSizePerWorker
          (s.workerOutputQueues.getD i []).length)
      (hi : i < s.workers.length) :
      Step cfg (Label.workerEmit i) s
        { s with
            workerOutputQueues :=
              s.workerOutputQueues.set i
                (s.workerOutputQueues.getD i [] ++ [(sid, item)])
            workers := s.workers.set i WorkerPC.idle }
  | collFetchNone (t i sid : Nat) (rest : List (Nat × Option A)) (s : State A)
      (habort : s.abortEvent = false)
      (hidle : s.collectors.getD t CollectorPC.idle = CollectorPC.idle)
      (hq : s.workerOutputQueues.getD i [] = (sid, none) :: rest)
      (ht : t < s.collectors.length) :
      Step cfg (Label.collFetchNone t i) s
        { s with
            workerOutputQueues := s.workerOutputQueues.set i rest
            jobsProcessed := s.jobsProcessed + 1 }
  | collFetchSome (t i sid : Nat) (b : A) (rest : List (Nat × Option A)) (s : State A)
      (habort : s.abortEvent = false)
      (hidle : s.collectors.getD t CollectorPC.idle = CollectorPC.idle)
      (hq : s.workerOutputQueues.getD i [] = (sid, some b) :: rest)
      (ht : t < s.collectors.length) :
      Step cfg (Label.collFetchSome t i) s
        { s with
            workerOutputQueues := s.workerOutputQueues.set i rest
            collectors := s.collectors.set t (CollectorPC.holding sid b) }
  | collStale (t sid : Nat) (b : A) (s : State A)
      (habort : s.abortEvent = false)
      (hpc : s.collectors.getD t CollectorPC.idle = CollectorPC.holding sid b)
      (hsid : sid ≠ s.jobSessionId)
      (ht : t < s.collectors.length) :
      Step cfg (Label.collStale t) s
        { s with
            collectors := s.collectors.set t CollectorPC.idle
            jobsProcessed := s.jobsProcessed + 1 }
  | collValidate (t sid : Nat) (b : A) (s : State A)
      (habort : s.abortEvent = false)
      (hpc : s.collectors.getD t CollectorPC.idle = CollectorPC.holding sid b)
      (hsid : sid = s.jobSessionId)
      (ht : t < s.collectors.length) :
      Step cfg (Label.collValidate t) s
        { s with collectors := s.collectors.set t (CollectorPC.validated sid b) }
  | collPush (t sid : Nat) (b : A) (s : State A)
      (hpc : s.collectors.getD t CollectorPC.idle = CollectorPC.validated sid b)
      (hfull : ¬ queueFull cfg.pinQueueCapacity s.pinMemoryQueue.length)
      (ht : t < s.collectors.length) :
      Step cfg (Label.collPush t) s
        { s with
            pinMemoryQueue := s.pinMemoryQueue ++ [(sid, some b)]
            collectors := s.collectors.set t CollectorPC.idle
            jobsProcessed := s.jobsProcessed + 1 }
  | collPushFull (t sid : Nat) (b : A) (s : State A)
      (hpc : s.collectors.getD t CollectorPC.idle = CollectorPC.validated sid b)
      (hfull : queueFull cfg.pinQueueCapacity s.pinMemoryQueue.length)
      (ht : t < s.collectors.length) :
      Step cfg (Label.collPushFull t) s
        { s with collectors := s.collectors.set t (CollectorPC.holding sid b) }
  | resetCall (s : State A) :
      Step cfg Label.resetCall s (reset s)
  | consumerGet (e : Nat × Option A) (rest : List (Nat × Option A)) (s : State A)
      (hq : s.pinMemoryQueue = e :: rest) :
      Step cfg Label.consumerGet s { s with pinMemoryQueue := rest }

/-- Reflexive-transitive closure of a step relation. -/
inductive Reach {A : Type} (R : State A → State A → Prop) : State A → State A → Prop where
  | refl (s : State A) : Reach R s s
  | tail (s t u : State A) (hr : Reach R s t) (hs : R t u) : Reach R s u

/-- States reachable from the freshly started executor by any
interleaving. -/
def Reachable {A : Type} (cfg : Config A) (s : State A) : Prop :=
  Reach (fun x y => ∃ l, Step cfg l x y) (initState cfg) s

/-- Whether a collector thread is between its successful session check
(source line 165) and the corresponding push (line 176), i.e. mid-delivery
of an already-validated result. -/
def CollectorPC.isValidated {A : Type} : CollectorPC A → Bool
  | CollectorPC.validated _ _ => true
  | _ => false

/-- `Step` restricted so that `reset` fires only when no collector thread
is mid-delivery of an already-validated result.  Python gives no such
guarantee; the restriction isolates exactly the race the source leaves
open. -/
def GStep {A : Type} (cfg : Config A) (l : Label A) (s s' : State A) : Prop :=
  Step cfg l s s' ∧
    (l = Label.resetCall → ∀ c ∈ s.collectors, c.isValidated = false)

/-- States reachable when every `reset` happens while no collector thread
is mid-delivery. -/
def GReachable {A : Type} (cfg : Config A) (s : State A) : Prop :=
  Reach (fun x y => ∃ l, GStep cfg l x y) (initState cfg) s

/-- Number of jobs a worker process currently holds (a dequeued job whose
result it has not yet pushed). -/
def workerHolds {A : Type} : WorkerPC A → Nat
  | WorkerPC.idle => 0
  | WorkerPC.emitting _ _ => 1

/-- Number of results a collector thread currently holds. -/
def collectorHolds {A : Type} : CollectorPC A → Nat
  | CollectorPC.idle => 0
  | CollectorPC.holding _ _ => 1
  | CollectorPC.validated _ _ => 1

/-- Number of jobs mid-flight: accepted by `put` but neither delivered to
the shared consumer queue nor discarded nor counted as failed.  Such jobs
sit in a worker input queue, in a worker process, in a worker output
queue, or in a collector thread. -/
def midFlight {A : Type} (s : State A) : Nat :=
  (s.workerInputQueues.map List.length).sum
    + (s.workers.map workerHolds).sum
    + (s.workerOutputQueues.map List.length).sum
    + (s.collectors.map collectorHolds).sum

/-- Structural well-formedness maintained by the running executor: one
input queue, one output queue and one process per worker, one entry per
collector thread, the round-robin cursor in range, the abort event
clear. -/
def GoodShape {A : Type} (cfg : Config A) (s : State A) : Prop :=
  s.workerInputQueues.length = cfg.nbWorkers ∧
  s.workerOutputQueues.length = cfg.nbWorkers ∧
  s.workers.length = cfg.nbWorkers ∧
  s.collectors.length = cfg.nbPinThreads ∧
  (0 < cfg.nbWorkers → s.workerControl < cfg.nbWorkers) ∧
  s.abortEvent = false

/-- The counting invariant behind idle detection: every accepted job is
either accounted for in `jobs_processed` or mid-flight. -/
def Counting {A : Type} (s : State A) : Prop :=
  s.jobsQueued = s.jobsProcessed + midFlight s

/-- Session-tag invariant: every mid-delivery collector validated against
the live session id, and every entry of the shared consumer queue is
tagged with the live session id. -/
def SessionTagged {A : Type} (s : State A) : Prop :=
  (∀ (t sid : Nat) (b : A),
      s.collectors.getD t CollectorPC.idle = CollectorPC.validated sid b →
      sid = s.jobSessionId) ∧
  (∀ e ∈ s.pinMemoryQueue, e.1 = s.jobSessionId)

/-- No failure marker ever sits on the shared consumer queue (claimed for
configurations with at least one worker). -/
def NoNonePayload {A : Type} (s : State A) : Prop :=
  ∀ e ∈ s.pinMemoryQueue, e.2 ≠ none

/-- A one-worker executor over `Nat` payloads whose transform increments
its argument. -/
def cfgN : Config Nat :=
  ⟨1, fun a => TransformResult.ok (some (a + 1)), 2, 3, 1⟩

/-- A zero-worker executor (synchronous mode). -/
def cfg0 : Config Nat :=
  ⟨0, fun a => TransformResult.ok (some (a + 1)), 2, 3, 1⟩

/-- A one-worker executor whose transform always raises. -/
def cfgRaise : Config Nat :=
  ⟨1, fun _ => TransformResult.raised, 2, 3, 1⟩

/-- A one-worker executor whose transform legitimately returns `None`. -/
def cfgNone : Config Nat :=
  ⟨1, fun _ => TransformResult.ok none, 2, 3, 1⟩

/-- A two-worker executor with input-queue capacity 1. -/
def cfg2 : Config Nat :=
  ⟨2, fun a => TransformResult.ok (some (a + 1)), 1, 3, 1⟩

/-- A one-worker executor whose shared consumer queue has capacity 1. -/
def cfgSmallPin : Config Nat :=
  ⟨1, fun a => TransformResult.ok (some (a + 1)), 2, 1, 1⟩

/-- `cfgN` after `put 1` accepted: the job `(0, 1)` sits in worker 0's
input queue. -/
def sA1 : State Nat where
  jobSessionId := 0
  jobsProcessed := 0
  jobsQueued := 1
  workerControl := 0
  workerInputQueues := [[(0, 1)]]
  workerOutputQueues := [[]]
  pinMemoryQueue := []
  abortEvent := false
  workers := [WorkerPC.idle]
  collectors := [CollectorPC.idle]

/-- ... after worker 0 dequeues the job and runs the transform. -/
def sA2 : State Nat :=
  { sA1 with workerInputQueues := [[]], workers := [WorkerPC.emitting 0 (some 2)] }

/-- ... after worker 0 pushes `(0, some 2)` onto its output queue. -/
def sA3 : State Nat :=
  { sA2 with workerOutputQueues := [[(0, some 2)]], workers := [WorkerPC.idle] }

/-- ... after collector 0 dequeues the result. -/
def sA4 : State Nat :=
  { sA3 with workerOutputQueues := [[]], collectors := [CollectorPC.holding 0 2] }

/-- ... after collector 0's session check succeeds (it is now
mid-delivery). -/
def sA5 : State Nat :=
  { sA4 with collectors := [CollectorPC.validated 0 2] }

/-- ... after the main thread runs `reset` while collector 0 is
mid-delivery: the session id is now 1. -/
def sA6 : State Nat :=
  { sA5 with jobSessionId := 1 }

/-- ... after collector 0 completes its pending push: a result of the
superseded session 0 sits on the shared consumer queue under live session
id 1. -/
def c1Stale : State Nat :=
  { sA6 with
      pinMemoryQueue := [(0, some 2)]
      collectors := [CollectorPC.idle]
      jobsProcessed := 1 }

/-- The same run without the interleaved `reset`: the delivered result is
tagged with the live session. -/
def c1Good : State Nat :=
  { sA5 with
      pinMemoryQueue := [(0, some 2)]
      collectors := [CollectorPC.idle]
      jobsProcessed := 1 }

/-- `cfg2` after two accepted `put`s and worker 1 dequeuing its job:
worker 0's input queue is full, worker 1's is empty, and the round-robin
cursor points at worker 0. -/
def c2state : State Nat where
  jobSessionId := 0
  jobsProcessed := 0
  jobsQueued := 2
  workerControl := 0
  workerInputQueues := [[(0, 9)], []]
  workerOutputQueues := [[], []]
  pinMemoryQueue := []
  abortEvent := false
  workers := [WorkerPC.idle, WorkerPC.emitting 0 (some 10)]
  collectors := [CollectorPC.idle]

/-- A `cfg2` state in which both worker input queues are full. -/
def c3state : State Nat :=
  { c2state with workerInputQueues := [[(0, 9)], [(0, 8)]], jobsQueued := 3 }

/-- `cfg0` after one synchronous `put 5`: the transformed payload is on
the shared consumer queue but `jobs_processed` was never incremented. -/
def c4state : State Nat :=
  { initState cfg0 with pinMemoryQueue := [(0, some 6)], jobsQueued := 1 }

/-- A `cfgRaise` state with one queued job. -/
def sR : State Nat :=
  { initState cfgRaise with workerInputQueues := [[(0, 4)]], jobsQueued := 1 }

/-- `sR` after worker 0 dequeues the job and the transform raises: the
worker holds the failure marker, ready to emit it. -/
def sR2 : State Nat :=
  { sR with workerInputQueues := [[]], workers := [WorkerPC.emitting 0 none] }

/-- A `cfgSmallPin` state whose shared consumer queue is full while
collector 0 is mid-delivery of a validated result. -/
def sFull : State Nat :=
  { initState cfgSmallPin with
      pinMemoryQueue := [(0, some 7)]
      jobsQueued := 2
      jobsProcessed := 1
      collectors := [CollectorPC.validated 0 3] }

/-! ### List auxiliaries -/

/-- `getD` at an index known to be in range is a member of the list. -/
theorem getD_mem {B : Type} (l : List B) (i : Nat) (d : B) (h : i < l.length) :
    l.getD i d ∈ l := by
  rw [List.getD_eq_getElem l d h]
  exact List.getElem_mem h

/-- An index at which `getD` does not give the default is in range. -/
theorem lt_length_of_getD_ne {B : Type} {l : List B} {i : Nat} {d : B}
    (h : l.getD i d ≠ d) : i < l.length := by
  by_contra hc
  exact h (List.getD_eq_default l d (Nat.le_of_not_lt hc))

/-- Reading back the element just written by `set`. -/
theorem getD_set_self {B : Type} (l : List B) (i : Nat) (x d : B)
    (h : i < l.length) : (l.set i x).getD i d = x := by
  rw [List.getD_eq_getElem _ d (by simpa using h)]
  simp [List.getElem_set_self]

/-- `set` leaves other positions unread by `getD` unchanged. -/
theorem getD_set_other {B : Type} (l : List B) (i j : Nat) (x d : B)
    (h : i ≠ j) : (l.set i x).getD j d = l.getD j d := by
  simp [List.getD, List.getElem?_set_ne h]

/-- Replacing one element of a list changes the sum of a `Nat`-valued map
by exactly the difference at that position (stated additively). -/
theorem sum_map_set {B : Type} (g : B → Nat) {l : List B} {i : Nat} {y : B} (x d : B)
    (hy : l.getD i d = y) (h : i < l.length) :
    ((l.set i x).map g).sum + g y = (l.map g).sum + g x := by
  subst hy
  induction l generalizing i with
  | nil => simp at h
  | cons b tl ih =>
      cases i with
      | zero => simp; omega
      | succ n =>
          have hn : n < tl.length := by simpa using h
          have := ih hn
          simp only [List.set, List.map, List.sum_cons, List.getD_cons_succ]
          omega

/-- The `reset` drain loop empties the shared consumer queue. -/
theorem drainQueue_eq_nil {A : Type} : ∀ l : List (Nat × Option A), drainQueue l = [] := by
  intro l
  induction l with
  | nil => rfl
  | cons e rest ih => simpa [drainQueue] using ih

/-! ### The `put` scan loop -/

/-- The scan loop of `put` either returns false leaving the state intact
(when the queue at the cursor is full, since the cursor is not advanced on
failure), or enqueues at the cursor, advances the cursor, and counts the
job. -/
theorem putScan_succ {A : Type} (cfg : Config A) (a : A) (s : State A) (fuel : Nat) :
    putScan cfg a (fuel + 1) s =
      if queueFull cfg.maxQueueSizePerWorker
          (s.workerInputQueues.getD s.workerControl []).length then
        putScan cfg a fuel s
      else
        ({ s with
            workerInputQueues :=
              s.workerInputQueues.set s.workerControl
                ((s.workerInputQueues.getD s.workerControl [])
                  ++ [(s.jobSessionId, a)])
            workerControl := (s.workerControl + 1) % cfg.nbWorkers
            jobsQueued := s.jobsQueued + 1 }, true) := rfl

theorem putScan_result {A : Type} (cfg : Config A) (a : A) (s : State A) :
    ∀ fuel : Nat,
      putScan cfg a fuel s = (s, false) ∨
      (¬ queueFull cfg.maxQueueSizePerWorker
          (s.workerInputQueues.getD s.workerControl []).length ∧
        putScan cfg a fuel s =
          ({ s with
              workerInputQueues :=
                s.workerInputQueues.set s.workerControl
                  ((s.workerInputQueues.getD s.workerControl [])
                    ++ [(s.jobSessionId, a)])
              workerControl := (s.workerControl + 1) % cfg.nbWorkers
              jobsQueued := s.jobsQueued + 1 }, true)) := by
  intro fuel
  induction fuel with
  | zero => exact Or.inl rfl
  | succ n ih =>
      by_cases h : queueFull cfg.maxQueueSizePerWorker
          (s.workerInputQueues.getD s.workerControl []).length
      · rcases ih with h1 | ⟨h2, _⟩
        · exact Or.inl (by rw [putScan_succ, if_pos h]; exact h1)
        · exact absurd h h2
      · exact Or.inr ⟨h, by rw [putScan_succ, if_neg h]⟩

/-- If the queue at the round-robin cursor is full, the whole scan loop
fails: the cursor never advances, so no other queue is ever examined. -/
theorem putScan_cursor_full {A : Type} (cfg : Config A) (a : A) (s : State A)
    (h : queueFull cfg.maxQueueSizePerWorker
      (s.workerInputQueues.getD s.workerControl []).length) :
    ∀ fuel : Nat, putScan cfg a fuel s = (s, false) := by
  intro fuel
  rcases putScan_result cfg a s fuel with h1 | ⟨h2, _⟩
  · exact h1
  · exact absurd h h2

/-! ### Reachability auxiliaries -/

/-- Invariants are proved by induction along `Reach`. -/
theorem Reach_invariant {A : Type} {R : State A → State A → Prop}
    {P : State A → Prop}
    (hstep : ∀ s s', R s s' → P s → P s') :
    ∀ {s0 s : State A}, Reach R s0 s → P s0 → P s := by
  intro s0 s h
  induction h with
  | refl => exact id
  | tail t u hr hs ih => exact fun h0 => hstep t u hs (ih h0)

/-- `Reach` is monotone in the step relation. -/
theorem Reach_mono {A : Type} {R S : State A → State A → Prop}
    (h : ∀ x y, R x y → S x y) :
    ∀ {s0 s : State A}, Reach R s0 s → Reach S s0 s := by
  intro s0 s hr
  induction hr with
  | refl => exact Reach.refl _
  | tail t u hr hs ih => exact Reach.tail _ _ _ ih (h t u hs)

/-- Every state reachable under the restricted semantics is reachable. -/
theorem GReachable.toReachable {A : Type} {cfg : Config A} {s : State A}
    (h : GReachable cfg s) : Reachable cfg s :=
  Reach_mono (fun _ _ hg => hg.imp (fun _ hl => hl.1)) h

/-! ### Inversion of `put` and preservation lemmas -/

/-- Complete case analysis of a successful return of `put`: synchronous
execution with zero workers, or the scan loop failing with the state
intact, or the scan loop enqueueing at the round-robin cursor. -/
theorem put_inv {A : Type} {cfg : Config A} {a : A} {s s2 : State A} {r : Bool}
    (h : put cfg a s = some (s2, r)) :
    (cfg.nbWorkers = 0 ∧ ∃ v, cfg.functionToRun a = TransformResult.ok v ∧
        s2 = { s with
                pinMemoryQueue := s.pinMemoryQueue ++ [(s.jobSessionId, v)]
                jobsQueued := s.jobsQueued + 1 } ∧ r = true) ∨
    (cfg.nbWorkers ≠ 0 ∧
      ((s2 = s ∧ r = false) ∨
        (¬ queueFull cfg.maxQueueSizePerWorker
            (s.workerInputQueues.getD s.workerControl []).length ∧
          s2 = { s with
                  workerInputQueues :=
                    s.workerInputQueues.set s.workerControl
                      ((s.workerInputQueues.getD s.workerControl [])
                        ++ [(s.jobSessionId, a)])
                  workerControl := (s.workerControl + 1) % cfg.nbWorkers
                  jobsQueued := s.jobsQueued + 1 } ∧ r = true))) := by
  by_cases hw : cfg.nbWorkers = 0
  · cases hfa : cfg.functionToRun a with
    | raised => rw [put, if_pos hw, hfa] at h; exact absurd h (by simp)
    | ok v =>
        rw [put, if_pos hw, hfa] at h
        simp only [Option.some.injEq, Prod.mk.injEq] at h
        exact Or.inl ⟨hw, v, rfl, h.1.symm, h.2.symm⟩
  · rw [put, if_neg hw] at h
    simp only [Option.some.injEq] at h
    rcases putScan_result cfg a s cfg.nbWorkers with h1 | ⟨h2, h3⟩
    · rw [h1] at h
      exact Or.inr ⟨hw, Or.inl ⟨(congrArg Prod.fst h).symm, (congrArg Prod.snd h).symm⟩⟩
    · rw [h3] at h
      exact Or.inr ⟨hw, Or.inr ⟨h2, (congrArg Prod.fst h).symm, (congrArg Prod.snd h).symm⟩⟩

/-- Every running-phase step preserves structural well-formedness. -/
theorem step_goodShape {A : Type} {cfg : Config A} {l : Label A} {s s2 : State A}
    (hstep : Step cfg l s s2) (hg : GoodShape cfg s) : GoodShape cfg s2 := by
  obtain ⟨h1, h2, h3, h4, h5, h6⟩ := hg
  cases hstep with
  | putCall a s0 s1 r h =>
      rcases put_inv h with ⟨hw, v, hfa, hs, hr⟩ | ⟨hw, hcase⟩
      · subst hs; exact ⟨h1, h2, h3, h4, h5, h6⟩
      · rcases hcase with ⟨hs, hr⟩ | ⟨hnf, hs, hr⟩
        · subst hs; exact ⟨h1, h2, h3, h4, h5, h6⟩
        · subst hs
          exact ⟨by simp [h1], h2, h3, h4,
            fun hpos => Nat.mod_lt _ hpos, h6⟩
  | workerFetch i sid a rest s0 habort hidle hq hi =>
      exact ⟨by simp [h1], h2, by simp [h3], h4, h5, h6⟩
  | workerEmit i sid item s0 hpc hfull hi =>
      exact ⟨h1, by simp [h2], by simp [h3], h4, h5, h6⟩
  | collFetchNone t i sid rest s0 habort hidle hq ht =>
      exact ⟨h1, by simp [h2], h3, h4, h5, h6⟩
  | collFetchSome t i sid b rest s0 habort hidle hq ht =>
      exact ⟨h1, by simp [h2], h3, by simp [h4], h5, h6⟩
  | collStale t sid b s0 habort hpc hsid ht =>
      exact ⟨h1, h2, h3, by simp [h4], h5, h6⟩
  | collValidate t sid b s0 habort hpc hsid ht =>
      exact ⟨h1, h2, h3, by simp [h4], h5, h6⟩
  | collPush t sid b s0 hpc hfull ht =>
      exact ⟨h1, h2, h3, by simp [h4], h5, h6⟩
  | collPushFull t sid b s0 hpc hfull ht =>
      exact ⟨h1, h2, h3, by simp [h4], h5, h6⟩
  | resetCall s0 =>
      exact ⟨h1, h2, h3, h4, h5, h6⟩
  | consumerGet e rest s0 hq =>
      exact ⟨h1, h2, h3, h4, h5, h6⟩

/-- Every reachable state is structurally well-formed. -/
theorem reachable_goodShape {A : Type} {cfg : Config A} {s : State A}
    (h : Reachable cfg s) : GoodShape cfg s := by
  refine Reach_invariant (fun x y hxy hg => ?_) h
    ⟨by simp [initState], by simp [initState], by simp [initState],
      by simp [initState], fun hpos => by simpa [initState] using hpos,
      by simp [initState]⟩
  obtain ⟨l2, hstep⟩ := hxy
  exact step_goodShape hstep hg

/-- Every running-phase step of an executor with at least one worker
preserves the counting invariant: each step moves a job along the
pipeline, discards it while counting it, or delivers it while counting
it. -/
theorem step_counting {A : Type} {cfg : Config A} {l : Label A} {s s2 : State A}
    (hw : 0 < cfg.nbWorkers) (hstep : Step cfg l s s2)
    (hg : GoodShape cfg s) (hc : Counting s) : Counting s2 := by
  obtain ⟨h1, h2, h3, h4, h5, h6⟩ := hg
  simp only [Counting, midFlight] at hc
  cases hstep with
  | putCall a s0 s1 r h =>
      rcases put_inv h with ⟨hw0, _⟩ | ⟨_, hcase⟩
      · exact absurd hw0 (by omega)
      · rcases hcase with ⟨hs, _⟩ | ⟨hnf, hs, _⟩
        · subst hs; simp only [Counting, midFlight]; omega
        · subst hs
          have hcur : s.workerControl < s.workerInputQueues.length := by
            rw [h1]; exact h5 hw
          have e1 := sum_map_set List.length
            ((s.workerInputQueues.getD s.workerControl [])
              ++ [(s.jobSessionId, a)]) [] rfl hcur
          simp only [Counting, midFlight]
          simp only [List.length_append, List.length_cons, List.length_nil] at e1
          omega
  | workerFetch i sid a rest s0 habort hidle hq hi =>
      have hiq : i < s.workerInputQueues.length :=
        lt_length_of_getD_ne (by rw [hq]; simp)
      have e1 := sum_map_set List.length rest [] hq hiq
      have e2 := sum_map_set workerHolds
        (WorkerPC.emitting sid (runTransform cfg.functionToRun a))
        WorkerPC.idle hidle hi
      simp only [Counting, midFlight]
      simp only [List.length_cons] at e1
      simp only [workerHolds] at e2
      omega
  | workerEmit i sid item s0 hpc hfull hi =>
      have hoq : i < s.workerOutputQueues.length := by
        rw [h2]; rw [h3] at hi; exact hi
      have e1 := sum_map_set List.length
        ((s.workerOutputQueues.getD i []) ++ [(sid, item)]) [] rfl hoq
      have e2 := sum_map_set workerHolds WorkerPC.idle WorkerPC.idle hpc hi
      simp only [Counting, midFlight]
      simp only [List.length_append, List.length_cons, List.length_nil] at e1
      simp only [workerHolds] at e2
      omega
  | collFetchNone t i sid rest s0 habort hidle hq ht =>
      have hoq : i < s.workerOutputQueues.length :=
        lt_length_of_getD_ne (by rw [hq]; simp)
      have e1 := sum_map_set List.length rest [] hq hoq
      simp only [Counting, midFlight]
      simp only [List.length_cons] at e1
      omega
  | collFetchSome t i sid b rest s0 habort hidle hq ht =>
      have hoq : i < s.workerOutputQueues.length :=
        lt_length_of_getD_ne (by rw [hq]; simp)
      have e1 := sum_map_set List.length rest [] hq hoq
      have e2 := sum_map_set collectorHolds (CollectorPC.holding sid b)
        CollectorPC.idle hidle ht
      simp only [Counting, midFlight]
      simp only [List.length_cons] at e1
      simp only [collectorHolds] at e2
      omega
  | collStale t sid b s0 habort hpc hsid ht =>
      have e2 := sum_map_set collectorHolds CollectorPC.idle
        CollectorPC.idle hpc ht
      simp only [Counting, midFlight]
      simp only [collectorHolds] at e2
      omega
  | collValidate t sid b s0 habort hpc hsid ht =>
      have e2 := sum_map_set collectorHolds (CollectorPC.validated sid b)
        CollectorPC.idle hpc ht
      simp only [Counting, midFlight]
      simp only [collectorHolds] at e2
      omega
  | collPush t sid b s0 hpc hfull ht =>
      have e2 := sum_map_set collectorHolds CollectorPC.idle
        CollectorPC.idle hpc ht
      simp only [Counting, midFlight]
      simp only [collectorHolds] at e2
      omega
  | collPushFull t sid b s0 hpc hfull ht =>
      have e2 := sum_map_set collectorHolds (CollectorPC.holding sid b)
        CollectorPC.idle hpc ht
      simp only [Counting, midFlight]
      simp only [collectorHolds] at e2
      omega
  | resetCall s0 =>
      simp only [Counting, midFlight, reset]
      omega
  | consumerGet e rest s0 hq =>
      simp only [Counting, midFlight]
      omega

/-- The counting invariant holds in every reachable state of an executor
with at least one worker. -/
theorem reachable_counting {A : Type} {cfg : Config A}
    (hw : 0 < cfg.nbWorkers) {s : State A} (h : Reachable cfg s) :
    Counting s := by
  refine (Reach_invariant
    (P := fun x => GoodShape cfg x ∧ Counting x) ?_ h ?_).2
  · rintro x y ⟨l2, hstep⟩ ⟨hg, hc⟩
    exact ⟨step_goodShape hstep hg, step_counting hw hstep hg hc⟩
  · refine ⟨reachable_goodShape (Reach.refl _), ?_⟩
    simp [Counting, midFlight, initState, workerHolds, collectorHolds]

/-- `getD` on a replicated list with the replicated element as default. -/
theorem getD_replicate_self {B : Type} (x : B) :
    ∀ (n t : Nat), (List.replicate n x).getD t x = x := by
  intro n
  induction n with
  | zero => intro t; rfl
  | succ m ih =>
      intro t
      cases t with
      | zero => rfl
      | succ u => simp [List.replicate]

/-- Every guarded step preserves the session-tag invariant: a collector
validates only against the live session id, pushes only what it
validated, and (under the guard) no validated result straddles a
`reset`. -/
theorem gstep_sessionTagged {A : Type} {cfg : Config A} {l : Label A}
    {s s2 : State A} (h : GStep cfg l s s2) (hp : SessionTagged s) :
    SessionTagged s2 := by
  obtain ⟨hstep, hguard⟩ := h
  obtain ⟨hcv, hpt⟩ := hp
  cases hstep with
  | putCall a s0 s1 r h =>
      rcases put_inv h with ⟨hw, v, hfa, hs, hr⟩ | ⟨hw, hcase⟩
      · subst hs
        refine ⟨hcv, fun e he => ?_⟩
        rcases List.mem_append.mp he with h1 | h1
        · exact hpt e h1
        · simp only [List.mem_singleton] at h1
          subst h1
          rfl
      · rcases hcase with ⟨hs, hr⟩ | ⟨hnf, hs, hr⟩ <;> subst hs
        · exact ⟨hcv, hpt⟩
        · exact ⟨hcv, hpt⟩
  | workerFetch i sid a rest s0 habort hidle hq hi => exact ⟨hcv, hpt⟩
  | workerEmit i sid item s0 hpc hfull hi => exact ⟨hcv, hpt⟩
  | collFetchNone t i sid rest s0 habort hidle hq ht => exact ⟨hcv, hpt⟩
  | collFetchSome t i sid b rest s0 habort hidle hq ht =>
      refine ⟨fun u sid2 b2 hu => ?_, hpt⟩
      by_cases hut : u = t
      · subst hut
        rw [getD_set_self _ _ _ _ ht] at hu
        exact absurd hu (by simp)
      · rw [getD_set_other _ _ _ _ _ (fun he => hut he.symm)] at hu
        exact hcv u sid2 b2 hu
  | collStale t sid b s0 habort hpc hsid ht =>
      refine ⟨fun u sid2 b2 hu => ?_, hpt⟩
      by_cases hut : u = t
      · subst hut
        rw [getD_set_self _ _ _ _ ht] at hu
        exact absurd hu (by simp)
      · rw [getD_set_other _ _ _ _ _ (fun he => hut he.symm)] at hu
        exact hcv u sid2 b2 hu
  | collValidate t sid b s0 habort hpc hsid ht =>
      refine ⟨fun u sid2 b2 hu => ?_, hpt⟩
      by_cases hut : u = t
      · subst hut
        rw [getD_set_self _ _ _ _ ht] at hu
        injection hu with e1 e2
        rw [← e1]
        exact hsid
      · rw [getD_set_other _ _ _ _ _ (fun he => hut he.symm)] at hu
        exact hcv u sid2 b2 hu
  | collPush t sid b s0 hpc hfull ht =>
      refine ⟨fun u sid2 b2 hu => ?_, fun e he => ?_⟩
      · by_cases hut : u = t
        · subst hut
          rw [getD_set_self _ _ _ _ ht] at hu
          exact absurd hu (by simp)
        · rw [getD_set_other _ _ _ _ _ (fun he => hut he.symm)] at hu
          exact hcv u sid2 b2 hu
      · rcases List.mem_append.mp he with h1 | h1
        · exact hpt e h1
        · simp only [List.mem_singleton] at h1
          subst h1
          exact hcv t sid b hpc
  | collPushFull t sid b s0 hpc hfull ht =>
      refine ⟨fun u sid2 b2 hu => ?_, hpt⟩
      by_cases hut : u = t
      · subst hut
        rw [getD_set_self _ _ _ _ ht] at hu
        exact absurd hu (by simp)
      · rw [getD_set_other _ _ _ _ _ (fun he => hut he.symm)] at hu
        exact hcv u sid2 b2 hu
  | resetCall s0 =>
      have hng := hguard rfl
      refine ⟨fun u sid2 b2 hu => ?_, fun e he => ?_⟩
      · have hu2 : s.collectors.getD u CollectorPC.idle
            = CollectorPC.validated sid2 b2 := hu
        by_cases hul : u < s.collectors.length
        · have hmem := getD_mem s.collectors u CollectorPC.idle hul
          have hfalse := hng _ hmem
          rw [hu2] at hfalse
          exact absurd hfalse (by simp [CollectorPC.isValidated])
        · rw [List.getD_eq_default _ _ (Nat.le_of_not_lt hul)] at hu2
          exact absurd hu2 (by simp)
      · have hpq : (reset s).pinMemoryQueue = [] := drainQueue_eq_nil _
        rw [hpq] at he
        exact absurd he (by simp)
  | consumerGet e rest s0 hq =>
      refine ⟨hcv, fun e2 he2 => ?_⟩
      exact hpt e2 (by rw [hq]; exact List.mem_cons_of_mem _ he2)

/-- The session-tag invariant holds in every state reachable without a
reset racing a mid-delivery collector. -/
theorem greachable_sessionTagged {A : Type} {cfg : Config A} {s : State A}
    (h : GReachable cfg s) : SessionTagged s := by
  refine Reach_invariant (fun x y hxy hp => ?_) h ⟨?_, ?_⟩
  · obtain ⟨l2, hg⟩ := hxy
    exact gstep_sessionTagged hg hp
  · intro t sid b hu
    have hrep := getD_replicate_self (CollectorPC.idle : CollectorPC A)
      cfg.nbPinThreads t
    simp only [initState] at hu
    rw [hrep] at hu
    exact absurd hu (by simp)
  · intro e he
    simp [initState] at he

/-- Every running-phase step of an executor with at least one worker
preserves the absence of failure markers on the shared consumer queue. -/
theorem step_noNone {A : Type} {cfg : Config A} {l : Label A} {s s2 : State A}
    (hw : 0 < cfg.nbWorkers) (hstep : Step cfg l s s2)
    (hp : NoNonePayload s) : NoNonePayload s2 := by
  cases hstep with
  | putCall a s0 s1 r h =>
      rcases put_inv h with ⟨hw0, _⟩ | ⟨_, hcase⟩
      · exact absurd hw0 (by omega)
      · rcases hcase with ⟨hs, _⟩ | ⟨_, hs, _⟩ <;> subst hs
        · exact hp
        · exact hp
  | workerFetch i sid a rest s0 habort hidle hq hi => exact hp
  | workerEmit i sid item s0 hpc hfull hi => exact hp
  | collFetchNone t i sid rest s0 habort hidle hq ht => exact hp
  | collFetchSome t i sid b rest s0 habort hidle hq ht => exact hp
  | collStale t sid b s0 habort hpc hsid ht => exact hp
  | collValidate t sid b s0 habort hpc hsid ht => exact hp
  | collPush t sid b s0 hpc hfull ht =>
      intro e he
      rcases List.mem_append.mp he with h1 | h1
      · exact hp e h1
      · simp only [List.mem_singleton] at h1
        subst h1
        simp
  | collPushFull t sid b s0 hpc hfull ht => exact hp
  | resetCall s0 =>
      intro e he
      have hpq : (reset s).pinMemoryQueue = [] := drainQueue_eq_nil _
      rw [hpq] at he
      exact absurd he (by simp)
  | consumerGet e rest s0 hq =>
      intro e2 he2
      exact hp e2 (by rw [hq]; exact List.mem_cons_of_mem _ he2)

/-- No failure marker ever reaches the shared consumer queue of an
executor with at least one worker. -/
theorem reachable_noNone {A : Type} {cfg : Config A} (hw : 0 < cfg.nbWorkers)
    {s : State A} (h : Reachable cfg s) : NoNonePayload s := by
  refine Reach_invariant (fun x y hxy hp => ?_) h ?_
  · obtain ⟨l2, hstep⟩ := hxy
    exact step_noNone hw hstep hp
  · intro e he
    simp [initState] at he

/-! ### Concrete executions -/

/-- A full delivery run of `cfgN` up to the point where collector 0 is
mid-delivery (session check passed, push pending), with every `reset`
guard trivially satisfied since no `reset` occurs. -/
theorem greach_sA5 : GReachable cfgN sA5 := by
  have t1 : Step cfgN (Label.putCall 1) (initState cfgN) sA1 :=
    Step.putCall 1 _ _ true (by decide)
  have t2 : Step cfgN (Label.workerFetch 0) sA1 sA2 :=
    Step.workerFetch 0 0 1 [] sA1 rfl rfl rfl (by decide)
  have t3 : Step cfgN (Label.workerEmit 0) sA2 sA3 :=
    Step.workerEmit 0 0 (some 2) sA2 rfl (by decide) (by decide)
  have t4 : Step cfgN (Label.collFetchSome 0 0) sA3 sA4 :=
    Step.collFetchSome 0 0 0 2 [] sA3 rfl rfl rfl (by decide)
  have t5 : Step cfgN (Label.collValidate 0) sA4 sA5 :=
    Step.collValidate 0 0 2 sA4 rfl rfl rfl (by decide)
  exact Reach.tail _ _ _
    (Reach.tail _ _ _
      (Reach.tail _ _ _
        (Reach.tail _ _ _
          (Reach.tail _ _ _ (Reach.refl _)
            ⟨_, t1, fun hl => Label.noConfusion hl⟩)
          ⟨_, t2, fun hl => Label.noConfusion hl⟩)
        ⟨_, t3, fun hl => Label.noConfusion hl⟩)
      ⟨_, t4, fun hl => Label.noConfusion hl⟩)
    ⟨_, t5, fun hl => Label.noConfusion hl⟩

/-- Completing the delivery with no interleaved `reset`. -/
theorem greach_c1Good : GReachable cfgN c1Good :=
  Reach.tail _ _ _ greach_sA5
    ⟨Label.collPush 0,
      Step.collPush 0 0 2 sA5 rfl (by decide) (by decide),
      fun hl => Label.noConfusion hl⟩

/-- The same delivery with `reset` interleaved between collector 0's
session check and its push: the stale result lands on the drained shared
queue. -/
theorem reach_c1Stale : Reachable cfgN c1Stale := by
  have t6 : Step cfgN Label.resetCall sA5 sA6 := Step.resetCall sA5
  have t7 : Step cfgN (Label.collPush 0) sA6 c1Stale :=
    Step.collPush 0 0 2 sA6 rfl (by decide) (by decide)
  exact Reach.tail _ _ _
    (Reach.tail _ _ _ (GReachable.toReachable greach_sA5)
      ⟨Label.resetCall, t6⟩)
    ⟨Label.collPush 0, t7⟩

/-- The two-`put`-one-fetch run of `cfg2` that leaves worker 0's input
queue full, worker 1's empty, and the cursor on worker 0. -/
theorem reach_c2state : Reachable cfg2 c2state := by
  have t1 : Step cfg2 (Label.putCall 9) (initState cfg2)
      { initState cfg2 with
          workerInputQueues := [[(0, 9)], []]
          workerControl := 1
          jobsQueued := 1 } :=
    Step.putCall 9 _ _ true (by decide)
  have t2 : Step cfg2 (Label.putCall 9)
      { initState cfg2 with
          workerInputQueues := [[(0, 9)], []]
          workerControl := 1
          jobsQueued := 1 }
      { initState cfg2 with
          workerInputQueues := [[(0, 9)], [(0, 9)]]
          workerControl := 0
          jobsQueued := 2 } :=
    Step.putCall 9 _ _ true (by decide)
  have t3 : Step cfg2 (Label.workerFetch 1)
      { initState cfg2 with
          workerInputQueues := [[(0, 9)], [(0, 9)]]
          workerControl := 0
          jobsQueued := 2 }
      c2state :=
    Step.workerFetch 1 0 9 [] _ rfl rfl rfl (by decide)
  exact Reach.tail _ _ _
    (Reach.tail _ _ _
      (Reach.tail _ _ _ (Reach.refl _) ⟨_, t1⟩)
      ⟨_, t2⟩)
    ⟨_, t3⟩

/-! ### Claims -/

/-- Claim C1, amended.  First part (unchanged from the claim): whenever a
collector thread finds that its dequeued result's session tag differs
from the live session id, it increments `jobs_processed`, discards the
result, and pushes nothing onto the shared consumer queue.  Second part
(amended): provided no `reset` fires while a collector thread is between
its successful session check and its push, every entry of the shared
consumer queue carries the live session id, so the consumer never
observes a result of a superseded session.  The unrestricted consequence
claimed is false: see the counterexample theorem, where a `reset`
interleaves inside that window. -/
theorem collector_discards_stale_results {A : Type} (cfg : Config A) :
    (∀ (t : Nat) (s s2 : State A), Step cfg (Label.collStale t) s s2 →
      s2.jobsProcessed = s.jobsProcessed + 1 ∧
      s2.pinMemoryQueue = s.pinMemoryQueue ∧
      s2.collectors.getD t CollectorPC.idle = CollectorPC.idle) ∧
    (∀ s : State A, GReachable cfg s →
      ∀ e ∈ s.pinMemoryQueue, e.1 = s.jobSessionId) := by
  constructor
  · intro t s s2 h
    cases h with
    | collStale t2 sid b s0 habort hpc hsid ht =>
        exact ⟨rfl, rfl, getD_set_self _ _ _ _ ht⟩
  · intro s h
    exact (greachable_sessionTagged h).2

/-- Witness for claim C1: in the concrete run that delivers one result
with no interleaved `reset`, the delivered entry carries the live session
id. -/
theorem collector_discards_stale_results_witness :
    ((0, some 2) : Nat × Option Nat).1 = c1Good.jobSessionId :=
  (collector_discards_stale_results cfgN).2 c1Good greach_c1Good
    (0, some 2) (by decide)

/-- Counterexample to claim C1 as stated: a `reset` interleaved between
collector 0's session check and its push yields a reachable state whose
live session id is 1 while the shared consumer queue holds a result of
superseded session 0; the consumer's next `get` observes it. -/
theorem consumer_observes_stale_after_midflight_reset :
    Reachable cfgN c1Stale ∧
    c1Stale.jobSessionId = 1 ∧
    c1Stale.pinMemoryQueue = [(0, some 2)] ∧
    (0 : Nat) ≠ c1Stale.jobSessionId ∧
    Step cfgN Label.consumerGet c1Stale
      { c1Stale with pinMemoryQueue := [] } :=
  ⟨reach_c1Stale, rfl, rfl, by decide,
    Step.consumerGet (0, some 2) [] c1Stale rfl⟩

/-- Claim C2, evaluated at the failing input: in the reachable `cfg2`
state where worker 0's input queue is full, worker 1's input queue is
empty (hence non-full), and the round-robin cursor points at worker 0,
`put` returns false and changes nothing — the scan loop re-examines the
cursor queue `nb_workers` times because the cursor advances only on
success, and never reaches the free queue, contradicting the claimed
scan. -/
theorem put_rejects_despite_free_queue :
    Reachable cfg2 c2state ∧
    ¬ queueFull cfg2.maxQueueSizePerWorker
        (c2state.workerInputQueues.getD 1 []).length ∧
    put cfg2 7 c2state = some (c2state, false) :=
  ⟨reach_c2state, by decide, by decide⟩

/-- Claim C3: with at least one worker and every worker input queue full,
`put` returns false and leaves the state unchanged: `jobs_queued` is not
incremented, the cursor does not move, no queue receives an item. -/
theorem put_allQueuesFull_noop {A : Type} (cfg : Config A) (a : A)
    (s : State A) (hw : 0 < cfg.nbWorkers)
    (hcur : s.workerControl < s.workerInputQueues.length)
    (hfull : ∀ q ∈ s.workerInputQueues,
      queueFull cfg.maxQueueSizePerWorker q.length) :
    put cfg a s = some (s, false) := by
  have hq : queueFull cfg.maxQueueSizePerWorker
      (s.workerInputQueues.getD s.workerControl []).length :=
    hfull _ (getD_mem _ _ _ hcur)
  rw [put, if_neg (by omega), putScan_cursor_full cfg a s hq cfg.nbWorkers]

/-- Witness for claim C3 at a concrete two-worker state with both input
queues full. -/
theorem put_allQueuesFull_noop_witness :
    put cfg2 7 c3state = some (c3state, false) :=
  put_allQueuesFull_noop cfg2 7 c3state (by decide) (by decide) (by decide)

/-- Claim C4, amended.  With at least one worker configured, in every
reachable state where no job is mid-flight, `jobs_queued` equals
`jobs_processed`; and `is_idle` returns true exactly when
`jobs_processed = jobs_queued`.  The restriction to at least one worker
is forced: the zero-worker `put` path increments `jobs_queued` without a
matching `jobs_processed` increment (see the counterexample theorem). -/
theorem queued_eq_processed_when_quiescent {A : Type} (cfg : Config A)
    (hw : 0 < cfg.nbWorkers) (s : State A) (h : Reachable cfg s) :
    (midFlight s = 0 → s.jobsQueued = s.jobsProcessed) ∧
    (isIdle s = true ↔ s.jobsProcessed = s.jobsQueued) := by
  constructor
  · intro hm
    have hc := reachable_counting hw h
    simp only [Counting] at hc
    omega
  · simp [isIdle]

/-- Witness for claim C4: the completed one-job run of `cfgN` is
quiescent with both counters equal to 1. -/
theorem queued_eq_processed_when_quiescent_witness :
    c1Good.jobsQueued = c1Good.jobsProcessed :=
  (queued_eq_processed_when_quiescent cfgN (by decide) c1Good
    (GReachable.toReachable greach_c1Good)).1 (by decide)

/-- Counterexample to claim C4 as stated: with zero workers, after one
accepted `put` the executor is quiescent (nothing mid-flight, the result
already delivered) yet `jobs_queued = 1` while `jobs_processed = 0`, and
`is_idle` reports false. -/
theorem zero_worker_put_breaks_idle_invariant :
    Reachable cfg0 c4state ∧ midFlight c4state = 0 ∧
    c4state.jobsQueued ≠ c4state.jobsProcessed ∧ isIdle c4state = false := by
  refine ⟨?_, by decide, by decide, by decide⟩
  exact Reach.tail _ _ _ (Reach.refl _)
    ⟨Label.putCall 5, Step.putCall 5 _ _ true (by decide)⟩

/-- Claim C5: when the transform raises, the worker catches the
exception and emits exactly one result — the pair of the job's session id
and the failure marker `None` — then returns to its polling loop instead
of terminating; the collector counts that failure marker in
`jobs_processed` and discards it (nothing reaches the shared consumer
queue, so no exception propagates to the consumer). -/
theorem worker_failure_marker_flow {A : Type} (cfg : Config A) :
    (∀ a : A, cfg.functionToRun a = TransformResult.raised →
      runTransform cfg.functionToRun a = none) ∧
    (∀ (i sid : Nat) (a : A) (rest : List (Nat × A)) (s : State A),
      cfg.functionToRun a = TransformResult.raised →
      s.abortEvent = false →
      s.workers.getD i WorkerPC.idle = WorkerPC.idle →
      s.workerInputQueues.getD i [] = (sid, a) :: rest →
      i < s.workers.length →
      Step cfg (Label.workerFetch i) s
        { s with
            workerInputQueues := s.workerInputQueues.set i rest
            workers := s.workers.set i (WorkerPC.emitting sid none) }) ∧
    (∀ (i sid : Nat) (s : State A),
      s.workers.getD i WorkerPC.idle = WorkerPC.emitting sid none →
      ¬ queueFull cfg.maxQueueSizePerWorker
        (s.workerOutputQueues.getD i []).length →
      i < s.workers.length →
      Step cfg (Label.workerEmit i) s
        { s with
            workerOutputQueues := s.workerOutputQueues.set i
              ((s.workerOutputQueues.getD i []) ++ [(sid, none)])
            workers := s.workers.set i WorkerPC.idle }) ∧
    (∀ (t i : Nat) (s s2 : State A),
      Step cfg (Label.collFetchNone t i) s s2 →
      s2.jobsProcessed = s.jobsProcessed + 1 ∧
      s2.pinMemoryQueue = s.pinMemoryQueue ∧
      s2.collectors = s.collectors) := by
  refine ⟨fun a h => by simp [runTransform, h], ?_, ?_, ?_⟩
  · intro i sid a rest s h1 hab hidle hq hi
    have hr : runTransform cfg.functionToRun a = none := by
      simp [runTransform, h1]
    have hstep : Step cfg (Label.workerFetch i) s
        { s with
            workerInputQueues := s.workerInputQueues.set i rest
            workers := s.workers.set i
              (WorkerPC.emitting sid (runTransform cfg.functionToRun a)) } :=
      Step.workerFetch i sid a rest s hab hidle hq hi
    rw [hr] at hstep
    exact hstep
  · intro i sid s hpc hfull hi
    exact Step.workerEmit i sid none s hpc hfull hi
  · intro t i s s2 h
    cases h with
    | collFetchNone t2 i2 sid rest s0 habort hidle hq ht =>
        exact ⟨rfl, rfl, rfl⟩

/-- Witness for claim C5: worker 0 of `cfgRaise` dequeues job `(0, 4)`,
the transform raises, and the worker holds exactly the failure-marker
result `(0, None)`. -/
theorem worker_failure_marker_flow_witness :
    Step cfgRaise (Label.workerFetch 0) sR sR2 :=
  (worker_failure_marker_flow cfgRaise).2.1 0 0 4 [] sR rfl rfl rfl rfl
    (by decide)

/-- Claim C6: a collector thread holding a validated current-session
result never drops it under backpressure: while the shared consumer
queue is full, the only enabled move retains the result (returning to the
re-check loop) and leaves `jobs_processed` and the queue untouched; when
the queue is not full, the push appends the result and only then
increments `jobs_processed`. -/
theorem collector_backpressure_no_drop {A : Type} (cfg : Config A)
    (t sid : Nat) (b : A) (s : State A)
    (hpc : s.collectors.getD t CollectorPC.idle = CollectorPC.validated sid b)
    (ht : t < s.collectors.length) :
    (queueFull cfg.pinQueueCapacity s.pinMemoryQueue.length →
      Step cfg (Label.collPushFull t) s
        { s with collectors := s.collectors.set t (CollectorPC.holding sid b) }) ∧
    (¬ queueFull cfg.pinQueueCapacity s.pinMemoryQueue.length →
      Step cfg (Label.collPush t) s
        { s with
            pinMemoryQueue := s.pinMemoryQueue ++ [(sid, some b)]
            collectors := s.collectors.set t CollectorPC.idle
            jobsProcessed := s.jobsProcessed + 1 }) ∧
    (∀ s2 : State A, Step cfg (Label.collPushFull t) s s2 →
      s2.jobsProcessed = s.jobsProcessed ∧
      s2.pinMemoryQueue = s.pinMemoryQueue ∧
      s2.collectors.getD t CollectorPC.idle = CollectorPC.holding sid b) := by
  refine ⟨fun hf => Step.collPushFull t sid b s hpc hf ht,
          fun hnf => Step.collPush t sid b s hpc hnf ht, ?_⟩
  intro s2 h
  cases h with
  | collPushFull t2 sid2 b2 s0 hpc2 hf2 ht2 =>
      have he := hpc.symm.trans hpc2
      injection he with e1 e2
      subst e1
      subst e2
      exact ⟨rfl, rfl, getD_set_self _ _ _ _ ht2⟩

/-- Witness for claim C6: the non-full branch delivers in the `cfgN` run;
the full branch retains the validated result in a `cfgSmallPin` state
whose shared queue (capacity 1) is full. -/
theorem collector_backpressure_no_drop_witness :
    Step cfgN (Label.collPush 0) sA5 c1Good ∧
    Step cfgSmallPin (Label.collPushFull 0) sFull
      { sFull with collectors := [CollectorPC.holding 0 3] } := by
  constructor
  · exact (collector_backpressure_no_drop cfgN 0 0 2 sA5 rfl
      (by decide)).2.1 (by decide)
  · exact (collector_backpressure_no_drop cfgSmallPin 0 0 3 sFull rfl
      (by decide)).1 (by decide)

/-- Claim C7, amended.  A `close` from a process other than the pool's
creator logs an error and performs none of the teardown — it does not
wait for, terminate or join workers and collector threads, and releases
no queues — but it is not a complete no-op: the shared abort event is
set before the ownership test, which does signal workers and collector
threads to stop.  The record equality frames every other field. -/
theorem close_nonowner_only_sets_abort {A : Type} (s : State A) :
    close false s = { s with abortEvent := true } := rfl

/-- Counterexample to claim C7 as stated: `close` from a non-owning
process mutates the pool state — the shared abort event flips from false
to true. -/
theorem close_nonowner_mutates_abort_event :
    (close false (initState cfgN)).abortEvent = true ∧
    (initState cfgN).abortEvent = false ∧
    close false (initState cfgN) ≠ initState cfgN := by
  refine ⟨rfl, rfl, ?_⟩
  decide

/-- Claim C8: `reset` drains every item currently in the shared consumer
queue and increments the session id by exactly one, and changes nothing
else — the record equality frames the worker and collector thread states,
the worker input and output queues (in-flight jobs), both counters, the
round-robin cursor and the abort event. -/
theorem reset_drains_and_bumps_session_only {A : Type} (s : State A) :
    reset s = { s with
        pinMemoryQueue := []
        jobSessionId := s.jobSessionId + 1 } := by
  simp only [reset, drainQueue_eq_nil]

/-- Claim C9: with zero workers configured and a transform returning
normally, `put` runs the transform synchronously in the caller, the
transformed payload is on the shared consumer queue when `put` returns,
`jobs_queued` is incremented by one, and `put` returns true. -/
theorem put_zero_workers_synchronous {A : Type} (cfg : Config A) (a : A)
    (v : Option A) (s : State A) (hw : cfg.nbWorkers = 0)
    (hv : cfg.functionToRun a = TransformResult.ok v) :
    put cfg a s =
      some ({ s with
                pinMemoryQueue := s.pinMemoryQueue ++ [(s.jobSessionId, v)]
                jobsQueued := s.jobsQueued + 1 }, true) := by
  rw [put, if_pos hw, hv]

/-- Witness for claim C9: the synchronous `put 5` on the fresh
zero-worker executor delivers the transformed payload `6` immediately. -/
theorem put_zero_workers_synchronous_witness :
    put cfg0 5 (initState cfg0) =
      some ({ initState cfg0 with
                pinMemoryQueue := [(0, some 6)]
                jobsQueued := 1 }, true) :=
  (put_zero_workers_synchronous cfg0 5 (some 6) (initState cfg0) rfl
    rfl).trans (by decide)

/-- Claim C10: the failure marker is the value `None`, so a transform
that legitimately returns `None` is indistinguishable from one that
raised — the worker emits `(session_id, None)` either way — and the
collector treats it exactly as a failed job: `jobs_processed` is
incremented and nothing is delivered; consequently, with at least one
worker configured, a `None` payload never appears on the shared consumer
queue in any reachable state. -/
theorem none_payload_is_failure_marker {A : Type} (cfg : Config A)
    (hw : 0 < cfg.nbWorkers) :
    (∀ a : A, cfg.functionToRun a = TransformResult.ok none →
      runTransform cfg.functionToRun a = none) ∧
    (∀ a : A, cfg.functionToRun a = TransformResult.raised →
      runTransform cfg.functionToRun a = none) ∧
    (∀ (t i : Nat) (s s2 : State A),
      Step cfg (Label.collFetchNone t i) s s2 →
      s2.jobsProcessed = s.jobsProcessed + 1 ∧
      s2.pinMemoryQueue = s.pinMemoryQueue) ∧
    (∀ s : State A, Reachable cfg s → ∀ e ∈ s.pinMemoryQueue, e.2 ≠ none) := by
  refine ⟨fun a h => by simp [runTransform, h],
          fun a h => by simp [runTransform, h], ?_, ?_⟩
  · intro t i s s2 h
    cases h with
    | collFetchNone t2 i2 sid rest s0 habort hidle hq ht =>
        exact ⟨rfl, rfl⟩
  · intro s h
    exact reachable_noNone hw h

/-- Witness for claim C10: for the transform of `cfgNone`, which returns
`None` legitimately, the worker's emitted item is the failure marker. -/
theorem none_payload_is_failure_marker_witness :
    runTransform cfgNone.functionToRun 5 = none :=
  (none_payload_is_failure_marker cfgNone (by decide)).1 5 rfl
